import Mathlib

set_option linter.unusedVariables false

/-! Verification of the slime2schem codec layer: a shallow embedding of the
slime-world reader (`slime/reader.go`) and the Sponge schematic v3 writer
(`schematic/writer.go`), with theorems about the behaviour of the embedded
functions. Machine integers are modelled as `Nat`/`Int` with explicit
two's-complement reductions where word width matters. -/

/-- A block in the section palette (`reader.go`, `BlockState`): a namespaced
name plus property key/value pairs. Go's `map[string]string` is modelled as an
association list. -/
structure BlockState where
  Name : String
  Properties : List (String × String)
  deriving DecidableEq, Repr

/-- A 16×16×16 chunk section (`reader.go`, `Section`). `BlockStates` holds
the packed words as Go `int64` values, modelled as mathematical integers
(decoded `int64` values always fit). -/
structure Section where
  BlockPalette : List BlockState
  BlockStates : List Int
  BitsPerBlock : Nat
  deriving DecidableEq, Repr

/-- The empty block state returned for an empty palette
(`BlockState{Name: "minecraft:air"}` with nil properties). -/
def airBlock : BlockState := ⟨"minecraft:air", []⟩

/-- Embedding of `Section.GetBlockAt` (`reader.go` lines 423–457). Go's
`int64` arithmetic right shift by `k` is floor division by `2^k`
(`Int.fdiv`), and `& mask` with `mask = (1 << bits) - 1` extracts the low
`bits` bits, which on two's complement values is `Int.emod` by `2^bits`
(non-negative for a positive modulus); the final Go `int(...)` cast of that
non-negative value is `Int.toNat`. Coordinates are naturals: the Go `int`
parameters are local section coordinates 0–15. This total function is the
Go behaviour only for `BitsPerBlock` in 1..63: at 0 Go panics dividing
`64 / bitsPerBlock`, at 65 and above Go panics dividing by
`blocksPerLong = 0`, and at exactly 64 Go's mask wraps to `int64(-1)`, so a
negative packed word yields a negative `paletteIndex` that slips past the
`>= len` check and panics indexing `BlockPalette` — while this embedding's
`emod 2^64` is non-negative and would take the palette-0 fallback.
Decoder-produced sections always have `BitsPerBlock = max 4 ⌈log₂ size⌉`
with the palette a Go slice (size below `2^63`), which pins `BitsPerBlock`
into 4..63; the claim theorem carries exactly that invariant. -/
def Section.GetBlockAt (s : Section) (x y z : Nat) : BlockState :=
  if s.BlockPalette.length = 0 then airBlock
  else if s.BlockPalette.length = 1 then s.BlockPalette.getD 0 airBlock
  else if s.BlockStates.length = 0 then s.BlockPalette.getD 0 airBlock
  else
    let blockIndex := y * 256 + z * 16 + x
    let bitsPerBlock := s.BitsPerBlock
    let blocksPerLong := 64 / bitsPerBlock
    let longIndex := blockIndex / blocksPerLong
    let bitOffset := (blockIndex % blocksPerLong) * bitsPerBlock
    if s.BlockStates.length ≤ longIndex then
      s.BlockPalette.getD 0 airBlock
    else
      let word := s.BlockStates.getD longIndex 0
      let paletteIndex := ((word.fdiv (2 ^ bitOffset)).emod (2 ^ bitsPerBlock)).toNat
      if s.BlockPalette.length ≤ paletteIndex then
        s.BlockPalette.getD 0 airBlock
      else
        s.BlockPalette.getD paletteIndex airBlock

/-- The bit-width search loop of `parseBlockStatesNBT` (`reader.go` lines
351–354): starting from `bits`, increment while `1 << bits < paletteSize`. -/
def bitsLoop (paletteSize : Nat) (bits : Nat) : Nat :=
  if 1 <<< bits < paletteSize then bitsLoop paletteSize (bits + 1) else bits
termination_by paletteSize - bits
decreasing_by
  have h2 : bits < 2 ^ bits := Nat.lt_two_pow bits
  have h3 : 1 <<< bits = 2 ^ bits := by simp [Nat.shiftLeft_eq]
  omega

/-- The bits-per-block computation of `parseBlockStatesNBT` (`reader.go`
lines 347–359): default 4, and for a non-empty palette the least `bits` with
`2^bits ≥ paletteSize`, clamped below by 4. -/
def computeBitsPerBlock (paletteSize : Nat) : Nat :=
  if 0 < paletteSize then
    if bitsLoop paletteSize 0 < 4 then 4 else bitsLoop paletteSize 0
  else 4

/-- The NBT compound decoded from a section's block-states record
(`reader.go`, `BlockStatesNBT`): a palette and the packed data words. The
external NBT library's output is modelled as this already-decoded value. -/
structure BlockStatesNBT where
  palette : List BlockState
  data : List Int
  deriving DecidableEq, Repr

/-- Embedding of `parseBlockStatesNBT` (`reader.go` lines 333–362) after the external
`nbt.Unmarshal` call, whose successful output is the `BlockStatesNBT`
argument: convert palette entries (an identity in this model), return the
data words unchanged, and compute bits-per-block from the palette size
alone. -/
def parseBlockStatesNBT (nbtVal : BlockStatesNBT) : List BlockState × List Int × Nat :=
  (nbtVal.palette, nbtVal.data, computeBitsPerBlock nbtVal.palette.length)

/-- The bit-unpacking contract of the spec (§4.1), stated on unsigned 64-bit
words modelled as naturals: `entriesPerWord = 64 / bitsPerEntry`,
`wordIndex = index / entriesPerWord`,
`bitOffset = (index % entriesPerWord) * bitsPerEntry`,
`mask = (1 << bitsPerEntry) - 1`, result
`(words[wordIndex] >> bitOffset) & mask`, with result 0 (palette index 0)
when `wordIndex` exceeds the array. -/
def unpack (words : List Nat) (index bitsPerEntry : Nat) : Nat :=
  let entriesPerWord := 64 / bitsPerEntry
  let wordIndex := index / entriesPerWord
  let bitOffset := (index % entriesPerWord) * bitsPerEntry
  (words.getD wordIndex 0 >>> bitOffset) &&& (1 <<< bitsPerEntry - 1)

/-- The unsigned 64-bit view of a Go `int64` word: its value modulo `2^64`. -/
def wordU64 (w : Int) : Nat := (w % 2 ^ 64).toNat

/-- The Sponge schematic under construction (`writer.go`, `Schematic`).
Go's `Palette map[string]int32` together with the `len(s.Palette)`-based
index assignment is modelled as an association list in insertion order (a Go
map holds exactly one value per key; iteration order is unspecified, so
theorems speak about membership). `blockData` stores the Go `uint16` values
as naturals `< 2^16`. Fields not involved in the verified claims
(`Offset`, `BlockEntities`, `Entities`) are omitted. -/
structure Schematic where
  Width : Nat
  Height : Nat
  Length : Nat
  DataVersion : Int
  Palette : List (String × Nat)
  blockData : List Nat
  deriving DecidableEq, Repr

/-- Embedding of `NewSchematic` (`writer.go` lines 49–59): palette seeded with
`"minecraft:air" -> 0`, block data all zero with `width*height*length`
entries. -/
def NewSchematic (width height length : Nat) (dataVersion : Int) : Schematic :=
  { Width := width
    Height := height
    Length := length
    DataVersion := dataVersion
    Palette := [("minecraft:air", 0)]
    blockData := List.replicate (width * height * length) 0 }

/-- Reduction of an integer to Go `int` (64-bit two's complement): the value
congruent modulo `2^64` lying in `[-2^63, 2^63)`. Go wraps every `int`
addition and multiplication this way; since wrapping is a ring homomorphism
modulo `2^64`, reducing once after the mathematical sum of products is
equivalent to wrapping at every step. -/
def goInt64 (n : Int) : Int := (n + 2 ^ 63) % 2 ^ 64 - 2 ^ 63

/-- Reinterpretation of the low 32 bits of a natural as a Go `int32`
(two's complement). -/
def toInt32 (n : Nat) : Int :=
  if n % 2 ^ 32 < 2 ^ 31 then (n % 2 ^ 32 : Int) else (n % 2 ^ 32 : Int) - 2 ^ 32

/-- Embedding of `Schematic.SetBlock` (`writer.go` lines 86–100): linear index
`x + z*Width + y*Width*Length` in Go `int` arithmetic, which wraps to 64-bit
two's complement (`goInt64`), so coordinates overflowing `2^63` can land back
inside the array; out-of-range indices return with no change; an unseen
state string is inserted with index `len(Palette)`; the stored datum is the
Go `uint16(paletteIdx)` cast, i.e. the index modulo `2^16`. -/
def Schematic.SetBlock (s : Schematic) (x y z : Int) (blockState : String) : Schematic :=
  let index := goInt64 (x + z * (s.Width : Int) + y * (s.Width : Int) * (s.Length : Int))
  if index < 0 ∨ (s.blockData.length : Int) ≤ index then s
  else
    match s.Palette.lookup blockState with
    | some paletteIdx =>
        { s with blockData := s.blockData.set index.toNat (paletteIdx % 2 ^ 16) }
    | none =>
        { s with
            Palette := s.Palette ++ [(blockState, s.Palette.length)]
            blockData := s.blockData.set index.toNat (s.Palette.length % 2 ^ 16) }

/-- The palette sub-tree written by `Save` (`writer.go` lines 129–133): one
int tag per entry of the palette map, keyed by the state string. Go map
iteration visits every key exactly once in unspecified order; the sub-tree is
modelled as the list of (name, value) tags, kept in insertion order. -/
def Schematic.savePaletteTags (s : Schematic) : List (String × Nat) := s.Palette

/-- One recorded `SetBlock` call. -/
structure SetBlockCall where
  x : Int
  y : Int
  z : Int
  state : String
  deriving DecidableEq, Repr

/-- Replay a sequence of `SetBlock` calls on a schematic. -/
def applyCalls (s : Schematic) (calls : List SetBlockCall) : Schematic :=
  calls.foldl (fun acc c => acc.SetBlock c.x c.y c.z c.state) s

/-- The linear index a `SetBlock` call computes, given the schematic's
width and length: Go `int` arithmetic, wrapping at 64 bits. -/
def callIndex (width length : Nat) (c : SetBlockCall) : Int :=
  goInt64 (c.x + c.z * (width : Int) + c.y * (width : Int) * (length : Int))

/-- A call is in bounds when its linear index falls inside the block array. -/
def InBoundsCall (width length total : Nat) (c : SetBlockCall) : Prop :=
  0 ≤ callIndex width length c ∧ callIndex width length c < (total : Int)

/-- The per-value varint encoder embedded from the second pass of
`writeBlockDataVarints` (`writer.go` lines 266–273): emit the low 7 bits with
the continuation bit `0x80` while the value is at least `0x80`, then the
final byte. `uv >>= 7` is division by `0x80`; `byte(uv&0x7F)|0x80` is
`uv % 0x80 + 0x80`. -/
def encodeVarint (uv : Nat) : List Nat :=
  if 0x80 ≤ uv then (uv % 0x80 + 0x80) :: encodeVarint (uv / 0x80) else [uv]
termination_by uv
decreasing_by exact Nat.div_lt_self (by omega) (by omega)

/-- The per-value byte counting of the first pass of `writeBlockDataVarints`
(`writer.go` lines 250–258): one byte per continuation step plus the final
byte. -/
def varintByteLen (uv : Nat) : Nat :=
  if 0x80 ≤ uv then 1 + varintByteLen (uv / 0x80) else 1
termination_by uv
decreasing_by exact Nat.div_lt_self (by omega) (by omega)

/-- The unsigned 32-bit pattern of the `int32` accumulator `byteLen` of the
first pass of `writeBlockDataVarints` (`writer.go` line 250): Go `int32`
addition wraps at 32 bits, so each step reduces modulo `2^32`. -/
def blockDataByteLenBits (data : List Nat) : Nat :=
  data.foldl (fun acc v => (acc + varintByteLen v) % 2 ^ 32) 0

/-- The total byte length computed by the first pass of
`writeBlockDataVarints` and written as the ByteArray tag length: the `int32`
value of the wrapping counter. For total lengths of `2^31` or more this is
not the true emitted length. -/
def blockDataByteLen (data : List Nat) : Int :=
  toInt32 (blockDataByteLenBits data)

/-- The second, streaming pass of `writeBlockDataVarints` (`writer.go` lines
265–284): varints accumulate in a buffer that is flushed to the output
whenever it reaches 4000 bytes. Returns (flushed output, residual buffer). -/
def varintPass2 (data : List Nat) (out buf : List Nat) : List Nat × List Nat :=
  match data with
  | [] => (out, buf)
  | v :: rest =>
      let buf2 := buf ++ encodeVarint v
      if 4000 ≤ buf2.length then varintPass2 rest (out ++ buf2) []
      else varintPass2 rest out buf2

/-- All bytes emitted by the second pass of `writeBlockDataVarints`: the
flushed output followed by the final buffer flush (`writer.go` lines
282–284; an empty final buffer emits nothing). -/
def writeBlockDataVarintsBytes (data : List Nat) : List Nat :=
  (varintPass2 data [] []).1 ++ (varintPass2 data [] []).2

/-- Modelled from the spec: the varint decoder (glossary: "each byte holds 7
value bits plus a continuation bit", low 7 bits first). The repository holds
only the encoder; the decoder lives in the schematic consumers. Returns the
decoded value and the unconsumed remainder. -/
def decodeVarint (bytes : List Nat) : Option (Nat × List Nat) :=
  match bytes with
  | [] => none
  | b :: rest =>
      if b < 0x80 then some (b, rest)
      else (decodeVarint rest).map fun vr => (b % 0x80 + vr.1 * 0x80, vr.2)

/-- Invariant of the palette map throughout a schematic's life: distinct
keys, values 0,1,2,... in insertion order, and `"minecraft:air"` first with
value 0. -/
def PaletteInv (p : List (String × Nat)) : Prop :=
  (p.map Prod.fst).Nodup ∧ p.map Prod.snd = List.range p.length ∧
  p.head? = some ("minecraft:air", 0)

/-- The world-flags bit masks (`reader.go` lines 18–20). -/
def FlagPOIChunks : Nat := 1

/-- Fluid-ticks world-flag bit (`reader.go` line 19). -/
def FlagFluidTicks : Nat := 2

/-- Block-ticks world-flag bit (`reader.go` line 20). -/
def FlagBlockTicks : Nat := 4

/-- Read one byte from a byte stream (a `binary.Read` of a `uint8` from a
`bytes.Reader`, failing at end of stream). Bytes are naturals `< 256`. -/
def readU8 : List Nat → Option (Nat × List Nat)
  | [] => none
  | b :: rest => some (b, rest)

/-- Read a big-endian `uint16` (`binary.Read(r, binary.BigEndian, &u16)`). -/
def readU16 (st : List Nat) : Option (Nat × List Nat) :=
  match readU8 st with
  | none => none
  | some (b1, st1) =>
    match readU8 st1 with
    | none => none
    | some (b2, st2) => some (b1 * 256 + b2, st2)

/-- Read a big-endian `uint32`. -/
def readU32 (st : List Nat) : Option (Nat × List Nat) :=
  match readU16 st with
  | none => none
  | some (h, st1) =>
    match readU16 st1 with
    | none => none
    | some (lo, st2) => some (h * 65536 + lo, st2)

/-- Read a big-endian `int32`: the `uint32` bits reinterpreted as two's
complement. -/
def readI32 (st : List Nat) : Option (Int × List Nat) :=
  match readU32 st with
  | none => none
  | some (v, st1) =>
    some (if v < 2 ^ 31 then (v : Int) else (v : Int) - 2 ^ 32, st1)

/-- Embedding of `make([]byte, n)` followed by `io.ReadFull` over it: fails when fewer
than `n` bytes remain (Go panics when `n` is negative; modelled as failure). -/
def readNBytes (n : Int) (st : List Nat) : Option (List Nat × List Nat) :=
  if n < 0 then none
  else if n.toNat ≤ st.length then some (st.take n.toNat, st.drop n.toNat)
  else none

/-- Embedding of `io.CopyN(io.Discard, r, n)`: discards `n` bytes, failing when fewer
remain; `n ≤ 0` discards nothing and succeeds. -/
def copyNDiscard (n : Int) (st : List Nat) : Option (List Nat) :=
  if n ≤ 0 then some st
  else if n.toNat ≤ st.length then some (st.drop n.toNat)
  else none

/-- Embedding of `skipSizedData` (`reader.go` lines 364–375): read an `int32` size and,
when positive, seek forward by that many bytes. A `bytes.Reader` forward
seek never fails, even past the end; a position past the end behaves like an
exhausted stream for all later reads, so it is modelled by the saturating
`drop`. -/
def skipSizedData (st : List Nat) : Option (List Nat) :=
  match readI32 st with
  | none => none
  | some (size, st1) => if 0 < size then some (st1.drop size.toNat) else some st1

/-- The optional-datasets fragment of `parseChunk` (`reader.go` lines
195–217): skip the POI block when bit `FlagPOIChunks` is set, then the
block-ticks block when bit `FlagBlockTicks` is set, then the fluid-ticks
block when bit `FlagFluidTicks` is set. -/
def skipOptionalChunkData (worldFlags : Nat) (st : List Nat) : Option (List Nat) :=
  match (if worldFlags &&& FlagPOIChunks ≠ 0 then skipSizedData st else some st) with
  | none => none
  | some st1 =>
    match (if worldFlags &&& FlagBlockTicks ≠ 0 then skipSizedData st1 else some st1) with
    | none => none
    | some st2 =>
      if worldFlags &&& FlagFluidTicks ≠ 0 then skipSizedData st2 else some st2

/-- Big-endian 2-byte encoding, for building test streams. -/
def u16BE (n : Nat) : List Nat := [n / 256 % 256, n % 256]

/-- Big-endian 4-byte encoding, for building test streams. -/
def u32BE (n : Nat) : List Nat :=
  [n / 2 ^ 24 % 256, n / 2 ^ 16 % 256, n / 2 ^ 8 % 256, n % 256]

/-- A length-prefixed block: big-endian `int32` length then the payload. -/
def sizedBlock (payload : List Nat) : List Nat := u32BE payload.length ++ payload

/-- A dynamic NBT value, as produced by the external library when decoding
into `map[string]interface{}`: nested compounds (maps), lists, or scalars.
Scalar kinds other than their presence are irrelevant to the claims. -/
inductive Dyn where
  | comp : List (String × Dyn) → Dyn
  | arr : List Dyn → Dyn
  | str : String → Dyn
  | int : Int → Dyn

/-- A parsed chunk (`reader.go`, `Chunk`). -/
structure SlimeChunk where
  X : Int
  Z : Int
  Sections : List Section
  TileEntities : List (List (String × Dyn))
  Entities : List (List (String × Dyn))

/-- A parsed slime world (`reader.go`, `SlimeWorld`). -/
structure SlimeWorld where
  WorldVersion : Nat
  Chunks : List SlimeChunk

/-- The distinct error exits of `ReadSlimeWorld` (`reader.go` lines 52–110);
the Go code wraps each in a distinct `fmt.Errorf` message. -/
inductive ReadErr where
  | readMagic
  | invalidMagic
  | readVersion
  | unsupportedVersion
  | readWorldVersion
  | readWorldFlags
  | readCompSize
  | readUncompSize
  | readCompData
  | decompressFail
  | sizeMismatch
  | parseChunksFail
  deriving DecidableEq, Repr

/-- Embedding of `ReadSlimeWorld` (`reader.go` lines 52–127). The external zstd library
(`decompressZstd`, an out-of-scope collaborator) and the repository's
`parseChunks` (whose internals no claim about this function depends on) are
passed as function parameters: the theorems hold for every instantiation.
Constants: magic `0xB10B`, supported versions 12 (`0x0C`) to 13 (`0x0D`);
the world-flags byte exists only for version ≥ 13 and defaults to 0. After
the chunk list parses, the trailing optional extra-data block is read with
every failure tolerated: all paths return the already-built world. -/
def ReadSlimeWorld
    (decompress : List Nat → Option (List Nat))
    (parseChunksF : List Nat → Nat → Nat → Option (List SlimeChunk))
    (data : List Nat) : Except ReadErr SlimeWorld :=
  match readU16 data with
  | none => .error .readMagic
  | some (magic, r1) =>
    if magic ≠ 0xB10B then .error .invalidMagic
    else
      match readU8 r1 with
      | none => .error .readVersion
      | some (version, r2) =>
        if version < 0x0C ∨ 0x0D < version then .error .unsupportedVersion
        else
          match readU32 r2 with
          | none => .error .readWorldVersion
          | some (worldVersion, r3) =>
            match (if 0x0D ≤ version then readU8 r3 else some (0, r3)) with
            | none => .error .readWorldFlags
            | some (worldFlags, r4) =>
              match readI32 r4 with
              | none => .error .readCompSize
              | some (compChunksSize, r5) =>
                match readI32 r5 with
                | none => .error .readUncompSize
                | some (uncompChunksSize, r6) =>
                  match readNBytes compChunksSize r6 with
                  | none => .error .readCompData
                  | some (compChunksData, r7) =>
                    match decompress compChunksData with
                    | none => .error .decompressFail
                    | some chunksData =>
                      if (chunksData.length : Int) ≠ uncompChunksSize then
                        .error .sizeMismatch
                      else
                        match parseChunksF chunksData worldFlags version with
                        | none => .error .parseChunksFail
                        | some chunks =>
                          match readI32 r7 with
                          | none => .ok ⟨worldVersion, chunks⟩
                          | some (compExtraSize, r8) =>
                            match readI32 r8 with
                            | none => .ok ⟨worldVersion, chunks⟩
                            | some (_, r9) =>
                              match copyNDiscard compExtraSize r9 with
                              | none => .ok ⟨worldVersion, chunks⟩
                              | some _ => .ok ⟨worldVersion, chunks⟩

/-- Embedding of `readNBTListSection` (`reader.go` lines 377–419), with the external
`nbt.Unmarshal` into `map[string]interface{}` passed as a function
parameter. A non-positive size yields an empty list; a failed size read or a
short payload read propagates as a failure (`nil, err` in Go); a payload
that fails to unmarshal, a missing `listName` field, or a field that is not
a list all degrade to an empty list; list items that are not compounds are
dropped. -/
def readNBTListSection
    (unmarshal : List Nat → Option (List (String × Dyn)))
    (listName : String) (st : List Nat) :
    Option (List (List (String × Dyn)) × List Nat) :=
  match readI32 st with
  | none => none
  | some (size, st1) =>
    if size ≤ 0 then some ([], st1)
    else
      match readNBytes size st1 with
      | none => none
      | some (nbtData, st2) =>
        match unmarshal nbtData with
        | none => some ([], st2)
        | some container =>
          match container.lookup listName with
          | none => some ([], st2)
          | some listRaw =>
            match listRaw with
            | .arr listSlice =>
                some (listSlice.filterMap
                  (fun item => match item with
                    | .comp m => some m
                    | _ => none), st2)
            | _ => some ([], st2)

lemma bitsLoop_eq_clog (n bits : Nat) :
    bitsLoop n bits = if n ≤ 2 ^ bits then bits else Nat.clog 2 n := by
  have H : ∀ (k bits : Nat), n - bits ≤ k →
      bitsLoop n bits = if n ≤ 2 ^ bits then bits else Nat.clog 2 n := by
    intro k
    induction k with
    | zero =>
      intro bits hb
      have hbp : bits < 2 ^ bits := Nat.lt_two_pow bits
      have hsh : 1 <<< bits = 2 ^ bits := by simp [Nat.shiftLeft_eq]
      rw [bitsLoop, if_neg (by omega), if_pos (by omega)]
    | succ k ih =>
      intro bits hb
      have hbp : bits < 2 ^ bits := Nat.lt_two_pow bits
      have hsh : 1 <<< bits = 2 ^ bits := by simp [Nat.shiftLeft_eq]
      rw [bitsLoop]
      by_cases h : 2 ^ bits < n
      · rw [if_pos (by omega), ih (bits + 1) (by omega)]
        by_cases h2 : n ≤ 2 ^ (bits + 1)
        · rw [if_pos h2, if_neg (by omega)]
          have hlo : bits < Nat.clog 2 n := (Nat.pow_lt_iff_lt_clog (by norm_num)).mp h
          have hhi : Nat.clog 2 n ≤ bits + 1 := (Nat.le_pow_iff_clog_le (by norm_num)).mp h2
          omega
        · rw [if_neg h2, if_neg (by omega)]
      · rw [if_neg (by omega), if_pos (by omega)]
  exact H (n - bits) bits le_rfl

lemma bitsLoop_zero_eq_clog (n : Nat) : bitsLoop n 0 = Nat.clog 2 n := by
  rw [bitsLoop_eq_clog]
  by_cases h : n ≤ 1
  · rw [if_pos (by simpa using h)]
    exact (Nat.clog_of_right_le_one h 2).symm
  · rw [if_neg (by simpa using h)]

lemma computeBitsPerBlock_eq_max (n : Nat) :
    computeBitsPerBlock n = max 4 (Nat.clog 2 n) := by
  unfold computeBitsPerBlock
  by_cases h : 0 < n
  · rw [if_pos h, bitsLoop_zero_eq_clog]
    split <;> omega
  · rw [if_neg h]
    have hn : n = 0 := by omega
    subst hn
    simp

lemma clog2_17_eq : Nat.clog 2 17 = 5 := by
  have h1 : Nat.clog 2 17 ≤ 5 :=
    (Nat.le_pow_iff_clog_le (by norm_num)).mp (by norm_num)
  have h2 : 4 < Nat.clog 2 17 :=
    (Nat.pow_lt_iff_lt_clog (by norm_num)).mp (by norm_num)
  omega

/-- C2: for every decoded section palette, the bits-per-entry value computed
by the decoder equals `max 4 ⌈log₂ paletteSize⌉`; it is a function of the
palette size alone (never read from the stream); palette sizes 1–16 give 4
bits and palette size 17 gives 5 bits. -/
theorem C2_bits_per_entry :
    (∀ nbtVal : BlockStatesNBT,
        (parseBlockStatesNBT nbtVal).2.2 = max 4 (Nat.clog 2 nbtVal.palette.length)) ∧
    (∀ v w : BlockStatesNBT, v.palette.length = w.palette.length →
        (parseBlockStatesNBT v).2.2 = (parseBlockStatesNBT w).2.2) ∧
    (∀ n : Nat, 1 ≤ n → n ≤ 16 → computeBitsPerBlock n = 4) ∧
    computeBitsPerBlock 17 = 5 := by
  refine ⟨fun v => computeBitsPerBlock_eq_max _, fun v w h => ?_, fun n h1 h16 => ?_, ?_⟩
  · simp only [parseBlockStatesNBT, h]
  · rw [computeBitsPerBlock_eq_max]
    have hc : Nat.clog 2 n ≤ 4 :=
      (Nat.le_pow_iff_clog_le (by norm_num)).mp (by norm_num; omega)
    omega
  · rw [computeBitsPerBlock_eq_max, clog2_17_eq]
    omega

/-- Witness for C2 at concrete inputs: palette sizes 16 and 17, and two
palettes of equal size 2. -/
theorem C2_bits_per_entry_witness :
    computeBitsPerBlock 16 = 4 ∧ computeBitsPerBlock 17 = 5 ∧
    (parseBlockStatesNBT ⟨[airBlock, airBlock], []⟩).2.2 =
      (parseBlockStatesNBT ⟨[airBlock, ⟨"minecraft:stone", []⟩], [7]⟩).2.2 :=
  ⟨C2_bits_per_entry.2.2.1 16 (by norm_num) (by norm_num),
   C2_bits_per_entry.2.2.2,
   C2_bits_per_entry.2.1 _ _ (by rfl)⟩

/-- C3: for every section and all local coordinates, an empty palette makes
`GetBlockAt` return the designated empty state (name `"minecraft:air"`), and
a one-entry palette makes it return that sole entry regardless of the packed
data, even when the packed array is empty. -/
theorem C3_empty_and_singleton_palette :
    (∀ (s : Section) (x y z : Nat), s.BlockPalette = [] →
        s.GetBlockAt x y z = ⟨"minecraft:air", []⟩) ∧
    (∀ (s : Section) (b : BlockState) (x y z : Nat), s.BlockPalette = [b] →
        s.GetBlockAt x y z = b) := by
  constructor
  · intro s x y z h
    simp [Section.GetBlockAt, h, airBlock]
  · intro s b x y z h
    simp [Section.GetBlockAt, h]

/-- Witness for C3: a section with an empty palette, and a section with a
one-entry palette and an empty packed array. -/
theorem C3_empty_and_singleton_palette_witness :
    Section.GetBlockAt ⟨[], [], 4⟩ 3 5 7 = ⟨"minecraft:air", []⟩ ∧
    Section.GetBlockAt ⟨[⟨"minecraft:stone", []⟩], [], 4⟩ 15 15 15 =
      ⟨"minecraft:stone", []⟩ :=
  ⟨C3_empty_and_singleton_palette.1 _ 3 5 7 rfl,
   C3_empty_and_singleton_palette.2 _ _ 15 15 15 rfl⟩

lemma shift_extract_u64 (w : Int) (off bits : Nat) (h : off + bits ≤ 64) :
    (w.fdiv (2 ^ off)).emod (2 ^ bits) = ((w % 2 ^ 64) / 2 ^ off) % 2 ^ bits := by
  show (w.fdiv (2 ^ off)) % (2 ^ bits) = _
  rw [Int.fdiv_eq_ediv _ (by positivity)]
  have hq : w / 2 ^ off = (w % 2 ^ 64) / 2 ^ off + (w / 2 ^ 64) * 2 ^ (64 - off) := by
    conv_lhs => rw [← Int.emod_add_ediv' w (2 ^ 64)]
    have h2 : (w / 2 ^ 64) * 2 ^ 64 = ((w / 2 ^ 64) * 2 ^ (64 - off)) * 2 ^ off := by
      rw [mul_assoc, ← pow_add]
      congr 2
      omega
    rw [h2, Int.add_mul_ediv_right _ _ (by positivity : (0:ℤ) < 2 ^ off).ne']
  rw [hq]
  have h3 : (w / 2 ^ 64) * 2 ^ (64 - off) =
      2 ^ bits * ((w / 2 ^ 64) * 2 ^ (64 - off - bits)) := by
    have hsplit : (2:ℤ) ^ (64 - off) = 2 ^ bits * 2 ^ (64 - off - bits) := by
      rw [← pow_add]
      congr 1
      omega
    rw [hsplit]
    ring
  rw [h3, Int.add_mul_emod_self_left]

lemma unpack_eq (words : List Nat) (i b : Nat) :
    unpack words i b =
      words.getD (i / (64 / b)) 0 / 2 ^ (i % (64 / b) * b) % 2 ^ b := by
  show words.getD (i / (64 / b)) 0 >>> (i % (64 / b) * b) &&& 1 <<< b - 1 = _
  rw [Nat.shiftRight_eq_div_pow, Nat.one_shiftLeft, Nat.and_pow_two_sub_one_eq_mod]

lemma getD_map_wordU64 (l : List Int) (n : Nat) (hn : n < l.length) :
    (l.map wordU64).getD n 0 = wordU64 (l.getD n 0) := by
  rw [List.getD_eq_getElem?_getD, List.getElem?_map, List.getElem?_eq_getElem hn,
    List.getD_eq_getElem?_getD, List.getElem?_eq_getElem hn]
  rfl

lemma paletteIndex_eq_unpack_val (l : List Int) (wi off bits : Nat)
    (hwi : wi < l.length) (hob : off + bits ≤ 64) :
    (((l.getD wi 0).fdiv (2 ^ off)).emod (2 ^ bits)).toNat =
      (l.map wordU64).getD wi 0 / 2 ^ off % 2 ^ bits := by
  rw [getD_map_wordU64 l wi hwi, shift_extract_u64 _ _ _ hob]
  have hr : (0:ℤ) ≤ l.getD wi 0 % 2 ^ 64 := Int.emod_nonneg _ (by positivity)
  rcases Int.eq_ofNat_of_zero_le hr with ⟨m, hm⟩
  rw [wordU64, hm, Int.toNat_natCast]
  have hcast : ((m / 2 ^ off % 2 ^ bits : Nat) : ℤ) = ((m : ℤ) / 2 ^ off) % 2 ^ bits := by
    push_cast
    ring
  rw [← hcast, Int.toNat_natCast]

lemma getBlockAt_main (s : Section) (x y z : Nat)
    (hL0 : ¬ s.BlockPalette.length = 0) (hL1 : ¬ s.BlockPalette.length = 1)
    (hS0 : ¬ s.BlockStates.length = 0) :
    s.GetBlockAt x y z =
      if s.BlockStates.length ≤ (y * 256 + z * 16 + x) / (64 / s.BitsPerBlock) then
        s.BlockPalette.getD 0 airBlock
      else
        if s.BlockPalette.length ≤
            (((s.BlockStates.getD ((y * 256 + z * 16 + x) / (64 / s.BitsPerBlock)) 0).fdiv
              (2 ^ ((y * 256 + z * 16 + x) % (64 / s.BitsPerBlock) * s.BitsPerBlock))).emod
              (2 ^ s.BitsPerBlock)).toNat then
          s.BlockPalette.getD 0 airBlock
        else
          s.BlockPalette.getD
            (((s.BlockStates.getD ((y * 256 + z * 16 + x) / (64 / s.BitsPerBlock)) 0).fdiv
              (2 ^ ((y * 256 + z * 16 + x) % (64 / s.BitsPerBlock) * s.BitsPerBlock))).emod
              (2 ^ s.BitsPerBlock)).toNat airBlock := by
  unfold Section.GetBlockAt
  rw [if_neg hL0, if_neg hL1, if_neg hS0]

lemma bitOffset_add_bits_le (i bits : Nat) (hb1 : 1 ≤ bits) (hb64 : bits ≤ 64) :
    i % (64 / bits) * bits + bits ≤ 64 := by
  have hepw : 1 ≤ 64 / bits := Nat.one_le_div_iff (by omega) |>.mpr hb64
  have hmod : i % (64 / bits) < 64 / bits := Nat.mod_lt _ (by omega)
  have hmul : (i % (64 / bits) + 1) * bits ≤ (64 / bits) * bits :=
    Nat.mul_le_mul_right bits (by omega)
  have hdm : 64 / bits * bits ≤ 64 := Nat.div_mul_le_self 64 bits
  calc i % (64 / bits) * bits + bits = (i % (64 / bits) + 1) * bits := by ring
    _ ≤ 64 / bits * bits := hmul
    _ ≤ 64 := hdm

lemma bitsPerBlock_range (n : Nat) (h2 : 2 ≤ n) (h63 : n < 2 ^ 63) :
    4 ≤ computeBitsPerBlock n ∧ computeBitsPerBlock n ≤ 63 := by
  rw [computeBitsPerBlock_eq_max]
  have hc : Nat.clog 2 n ≤ 63 :=
    (Nat.le_pow_iff_clog_le (by norm_num)).mp (by omega)
  omega

lemma computeBitsPerBlock_two : computeBitsPerBlock 2 = 4 := by
  rw [computeBitsPerBlock_eq_max]
  have h : Nat.clog 2 2 = 1 := by
    have hp := Nat.clog_pow 2 1 (by norm_num)
    simpa using hp
  rw [h]
  omega

/-- C1 (amended): for every section as the decoder produces it — at least 2
palette entries, bits-per-block equal to the decoder's palette-size
computation (`max 4 ⌈log₂ size⌉`, by C2), a palette short enough to be a Go
slice (length below `2^63`, which pins bits-per-block into 4..63, the range
where the Go arithmetic neither divides by zero nor, as at 64 bits, builds
the mask `int64(-1)` whose negative extracted index panics) — with a
non-empty packed word array and local coordinates x, y, z in 0..15,
`GetBlockAt` computes the linear index `i = y*256 + z*16 + x` and, with
`entriesPerWord = 64 / bitsPerEntry`, `wordIndex = i / entriesPerWord`,
`bitOffset = (i % entriesPerWord) * bitsPerEntry`: when `wordIndex` is within
the word array it returns the palette entry at index
`(words[wordIndex] >> bitOffset) & ((1 << bitsPerEntry) - 1)` (on the
unsigned 64-bit word values) when that index is within the palette, and
palette entry 0 otherwise; when `wordIndex` exceeds the array the call does
not fail and the result is palette entry 0. -/
theorem C1_getBlockAt_unpack (s : Section) (x y z : Nat)
    (hx : x < 16) (hy : y < 16) (hz : z < 16)
    (hpal : 2 ≤ s.BlockPalette.length)
    (hst : s.BlockStates ≠ [])
    (hslice : s.BlockPalette.length < 2 ^ 63)
    (hbits : s.BitsPerBlock = computeBitsPerBlock s.BlockPalette.length) :
    ((y * 256 + z * 16 + x) / (64 / s.BitsPerBlock) < s.BlockStates.length →
      s.GetBlockAt x y z =
        if unpack (s.BlockStates.map wordU64) (y * 256 + z * 16 + x) s.BitsPerBlock <
            s.BlockPalette.length then
          s.BlockPalette.getD
            (unpack (s.BlockStates.map wordU64) (y * 256 + z * 16 + x) s.BitsPerBlock)
            airBlock
        else s.BlockPalette.getD 0 airBlock) ∧
    (s.BlockStates.length ≤ (y * 256 + z * 16 + x) / (64 / s.BitsPerBlock) →
      s.GetBlockAt x y z = s.BlockPalette.getD 0 airBlock) := by
  have hrange := bitsPerBlock_range s.BlockPalette.length hpal hslice
  have hb1 : 1 ≤ s.BitsPerBlock := by omega
  have hb64 : s.BitsPerBlock ≤ 64 := by omega
  have hL0 : ¬ s.BlockPalette.length = 0 := by omega
  have hL1 : ¬ s.BlockPalette.length = 1 := by omega
  have hS0 : ¬ s.BlockStates.length = 0 := by
    intro h
    exact hst (List.length_eq_zero.mp h)
  rw [getBlockAt_main s x y z hL0 hL1 hS0]
  constructor
  · intro hwi
    rw [if_neg (not_le.mpr hwi), unpack_eq,
      ← paletteIndex_eq_unpack_val _ _ _ _ hwi
        (bitOffset_add_bits_le (y * 256 + z * 16 + x) _ hb1 hb64)]
    split_ifs with h1 h2
    · omega
    · rfl
    · rfl
    · omega
  · intro hwi
    rw [if_pos hwi]

/-- C1 counterexample: the section with palette `[air, stone]`, packed words
`[5]` and 4 bits per block, at local coordinates (0,0,0). The word index 0 is
within the word array and the unpacked value `(5 >> 0) & 15 = 5`, but the
palette has no entry at index 5: the code returns palette entry 0 (air)
instead of "the palette entry at index 5", which does not exist. -/
theorem C1_counterexample :
    unpack (((Section.mk [⟨"minecraft:air", []⟩, ⟨"minecraft:stone", []⟩] [5] 4).BlockStates).map
        wordU64) (0 * 256 + 0 * 16 + 0) 4 = 5 ∧
    (0 * 256 + 0 * 16 + 0) / (64 / 4) <
      (Section.mk [⟨"minecraft:air", []⟩, ⟨"minecraft:stone", []⟩] [5] 4).BlockStates.length ∧
    (Section.mk [⟨"minecraft:air", []⟩, ⟨"minecraft:stone", []⟩] [5] 4).GetBlockAt 0 0 0 =
      ⟨"minecraft:air", []⟩ ∧
    ¬ ∃ h5 : 5 <
        (Section.mk [⟨"minecraft:air", []⟩, ⟨"minecraft:stone", []⟩] [5] 4).BlockPalette.length,
      (Section.mk [⟨"minecraft:air", []⟩, ⟨"minecraft:stone", []⟩] [5] 4).GetBlockAt 0 0 0 =
        (Section.mk [⟨"minecraft:air", []⟩, ⟨"minecraft:stone", []⟩] [5] 4).BlockPalette.get
          ⟨5, h5⟩ := by
  refine ⟨by decide, by decide, by decide, ?_⟩
  rintro ⟨h5, -⟩
  exact absurd h5 (by decide)

/-- Witness for C1 at concrete inputs: word value 18 at (1,0,0) hits the
in-range branch (unpacked index 1, the stone entry), and (15,15,15) with a
single word hits the word-index-out-of-range branch. -/
theorem C1_getBlockAt_unpack_witness :
    ((0 * 256 + 0 * 16 + 1) / (64 / 4) < ([(18 : Int)]).length ∧
      (Section.mk [airBlock, ⟨"minecraft:stone", []⟩] [18] 4).GetBlockAt 1 0 0 =
        (if unpack (([(18 : Int)]).map wordU64) (0 * 256 + 0 * 16 + 1) 4 <
            ([airBlock, ⟨"minecraft:stone", []⟩] : List BlockState).length then
          ([airBlock, ⟨"minecraft:stone", []⟩] : List BlockState).getD
            (unpack (([(18 : Int)]).map wordU64) (0 * 256 + 0 * 16 + 1) 4) airBlock
        else ([airBlock, ⟨"minecraft:stone", []⟩] : List BlockState).getD 0 airBlock)) ∧
    (([(18 : Int)]).length ≤ (15 * 256 + 15 * 16 + 15) / (64 / 4) ∧
      (Section.mk [airBlock, ⟨"minecraft:stone", []⟩] [18] 4).GetBlockAt 15 15 15 =
        ([airBlock, ⟨"minecraft:stone", []⟩] : List BlockState).getD 0 airBlock) := by
  constructor
  · exact ⟨by decide,
      (C1_getBlockAt_unpack (Section.mk [airBlock, ⟨"minecraft:stone", []⟩] [18] 4) 1 0 0
        (by decide) (by decide) (by decide) (by decide) (by decide) (by norm_num)
        computeBitsPerBlock_two.symm).1 (by decide)⟩
  · exact ⟨by decide,
      (C1_getBlockAt_unpack (Section.mk [airBlock, ⟨"minecraft:stone", []⟩] [18] 4) 15 15 15
        (by decide) (by decide) (by decide) (by decide) (by decide) (by norm_num)
        computeBitsPerBlock_two.symm).2 (by decide)⟩

lemma encodeVarint_length (uv : Nat) : (encodeVarint uv).length = varintByteLen uv := by
  induction uv using Nat.strong_induction_on with
  | _ uv ih =>
    rw [encodeVarint, varintByteLen]
    by_cases h : 0x80 ≤ uv
    · rw [if_pos h, if_pos h, List.length_cons,
        ih (uv / 0x80) (Nat.div_lt_self (by omega) (by omega))]
      omega
    · rw [if_neg h, if_neg h]
      rfl

lemma decodeVarint_encodeVarint (uv : Nat) :
    ∀ rest : List Nat, decodeVarint (encodeVarint uv ++ rest) = some (uv, rest) := by
  induction uv using Nat.strong_induction_on with
  | _ uv ih =>
    intro rest
    rw [encodeVarint]
    by_cases h : 0x80 ≤ uv
    · rw [if_pos h, List.cons_append, decodeVarint,
        if_neg (by omega), ih (uv / 0x80) (Nat.div_lt_self (by omega) (by omega)) rest]
      simp only [Option.map_some']
      have hval : (uv % 0x80 + 0x80) % 0x80 + uv / 0x80 * 0x80 = uv := by omega
      rw [hval]
    · rw [if_neg h, List.cons_append, decodeVarint, if_pos (by omega)]
      rfl

lemma varintPass2_bytes (data : List Nat) :
    ∀ out buf : List Nat,
      (varintPass2 data out buf).1 ++ (varintPass2 data out buf).2 =
        out ++ buf ++ data.flatMap encodeVarint := by
  induction data with
  | nil =>
    intro out buf
    rw [varintPass2]
    simp
  | cons v rest ih =>
    intro out buf
    rw [varintPass2]
    by_cases h : 4000 ≤ (buf ++ encodeVarint v).length
    · rw [if_pos h, ih]
      simp
    · rw [if_neg h, ih]
      simp

lemma blockDataByteLen_acc (data : List Nat) :
    ∀ a : Nat, data.foldl (fun acc v => acc + varintByteLen v) a =
      a + (data.flatMap encodeVarint).length := by
  induction data with
  | nil =>
    intro a
    simp
  | cons v rest ih =>
    intro a
    rw [List.foldl_cons, ih]
    simp [encodeVarint_length]
    omega

lemma writeBlockDataVarintsBytes_length (data : List Nat) :
    (writeBlockDataVarintsBytes data).length = (data.flatMap encodeVarint).length := by
  rw [writeBlockDataVarintsBytes, varintPass2_bytes data [] []]
  simp

lemma blockDataByteLenBits_eq (data : List Nat) :
    blockDataByteLenBits data = (data.flatMap encodeVarint).length % 2 ^ 32 := by
  have H : ∀ (d : List Nat) (acc : Nat), acc < 2 ^ 32 →
      d.foldl (fun acc v => (acc + varintByteLen v) % 2 ^ 32) acc =
        d.foldl (fun acc v => acc + varintByteLen v) acc % 2 ^ 32 := by
    intro d
    induction d with
    | nil =>
      intro acc hacc
      simp only [List.foldl_nil]
      omega
    | cons v rest ih =>
      intro acc hacc
      rw [List.foldl_cons, List.foldl_cons, ih _ (Nat.mod_lt _ (by norm_num)),
        blockDataByteLen_acc rest ((acc + varintByteLen v) % 2 ^ 32),
        blockDataByteLen_acc rest (acc + varintByteLen v), Nat.mod_add_mod]
  rw [blockDataByteLenBits, H data 0 (by norm_num), blockDataByteLen_acc data 0]
  simp

lemma encodeVarint_zero : encodeVarint 0 = [0] := by
  rw [encodeVarint]
  norm_num

lemma flatMap_encodeVarint_replicate_zero (n : Nat) :
    (List.replicate n (0 : Nat)).flatMap encodeVarint = List.replicate n 0 := by
  induction n with
  | zero => rfl
  | succ k ih =>
    rw [List.replicate_succ, List.flatMap_cons, encodeVarint_zero, ih]
    rfl

/-- C4 (amended): the block-data varint encoder emits each value low 7 bits
first with a continuation bit on every byte but the last — encoding 300
gives exactly `[0xAC, 0x02]`, decoding those bytes gives 300, and in general
decoding an encoding returns the encoded value — and for every input array
whose total encoded length is below `2^31` (the range of the `int32`
counter), the byte length computed by the counting pass and written as the
ByteArray tag length equals the number of bytes emitted by the streaming
second pass. The decoder is modelled from the spec (the repository contains
only the encoder). -/
theorem C4_varint_encoding :
    encodeVarint 300 = [0xAC, 0x02] ∧
    decodeVarint [0xAC, 0x02] = some (300, []) ∧
    (∀ (v : Nat) (rest : List Nat), decodeVarint (encodeVarint v ++ rest) = some (v, rest)) ∧
    (∀ data : List Nat, (data.flatMap encodeVarint).length < 2 ^ 31 →
      blockDataByteLen data = ((writeBlockDataVarintsBytes data).length : Int)) := by
  refine ⟨?_, by decide, fun v rest => decodeVarint_encodeVarint v rest,
    fun data hsmall => ?_⟩
  · rw [encodeVarint, if_pos (by norm_num), encodeVarint, if_neg (by norm_num)]
  · have hm : (data.flatMap encodeVarint).length % 2 ^ 32 =
        (data.flatMap encodeVarint).length :=
      Nat.mod_eq_of_lt (by omega)
    rw [blockDataByteLen, blockDataByteLenBits_eq data, hm,
      writeBlockDataVarintsBytes_length data, toInt32, hm, if_pos hsmall]
    omega

/-- C4 counterexample: an array of `2^31` zero entries (one encoded byte
each) makes the first pass's `int32` counter wrap to `-2^31`, while the
second pass emits `2^31` bytes: the written ByteArray tag length does not
equal the number of bytes emitted. -/
theorem C4_counterexample :
    blockDataByteLen (List.replicate (2 ^ 31) 0) = -(2 ^ 31) ∧
    ((writeBlockDataVarintsBytes (List.replicate (2 ^ 31) 0)).length : Int) = 2 ^ 31 ∧
    blockDataByteLen (List.replicate (2 ^ 31) 0) ≠
      ((writeBlockDataVarintsBytes (List.replicate (2 ^ 31) 0)).length : Int) := by
  have hlen : ((List.replicate (2 ^ 31) (0 : Nat)).flatMap encodeVarint).length = 2 ^ 31 := by
    rw [flatMap_encodeVarint_replicate_zero, List.length_replicate]
  have h1 : blockDataByteLen (List.replicate (2 ^ 31) 0) = -(2 ^ 31) := by
    rw [blockDataByteLen, blockDataByteLenBits_eq, hlen, toInt32]
    norm_num
  have h2 : ((writeBlockDataVarintsBytes (List.replicate (2 ^ 31) 0)).length : Int) =
      2 ^ 31 := by
    rw [writeBlockDataVarintsBytes_length, hlen]
    norm_num
  refine ⟨h1, h2, ?_⟩
  rw [h1, h2]
  norm_num

/-- Witness for C4 at the concrete array `[300]`: two encoded bytes, well
below the `int32` bound, and the counted length equals the emitted length. -/
theorem C4_varint_encoding_witness :
    ((([300] : List Nat).flatMap encodeVarint).length < 2 ^ 31) ∧
    blockDataByteLen [300] = ((writeBlockDataVarintsBytes [300]).length : Int) := by
  have h300 : encodeVarint 300 = [0xAC, 0x02] := C4_varint_encoding.1
  have hsm : (([300] : List Nat).flatMap encodeVarint).length < 2 ^ 31 := by
    rw [List.flatMap_cons, h300]
    norm_num
  exact ⟨hsm, C4_varint_encoding.2.2.2 [300] hsm⟩

lemma setBlock_palette_eq (s : Schematic) (x y z : Int) (st : String) :
    (s.SetBlock x y z st).Palette =
      if goInt64 (x + z * (s.Width : Int) + y * (s.Width : Int) * (s.Length : Int)) < 0 ∨
          (s.blockData.length : Int) ≤
            goInt64 (x + z * (s.Width : Int) + y * (s.Width : Int) * (s.Length : Int)) then
        s.Palette
      else
        match s.Palette.lookup st with
        | some _ => s.Palette
        | none => s.Palette ++ [(st, s.Palette.length)] := by
  simp only [Schematic.SetBlock]
  by_cases hb :
      goInt64 (x + z * (s.Width : Int) + y * (s.Width : Int) * (s.Length : Int)) < 0 ∨
      (s.blockData.length : Int) ≤
        goInt64 (x + z * (s.Width : Int) + y * (s.Width : Int) * (s.Length : Int))
  · simp only [if_pos hb]
  · simp only [if_neg hb]
    cases hl : s.Palette.lookup st <;> rfl

lemma setBlock_dims (s : Schematic) (x y z : Int) (st : String) :
    (s.SetBlock x y z st).Width = s.Width ∧
    (s.SetBlock x y z st).Height = s.Height ∧
    (s.SetBlock x y z st).Length = s.Length ∧
    (s.SetBlock x y z st).blockData.length = s.blockData.length := by
  simp only [Schematic.SetBlock]
  by_cases hb :
      goInt64 (x + z * (s.Width : Int) + y * (s.Width : Int) * (s.Length : Int)) < 0 ∨
      (s.blockData.length : Int) ≤
        goInt64 (x + z * (s.Width : Int) + y * (s.Width : Int) * (s.Length : Int))
  · simp only [if_pos hb]
    simp
  · simp only [if_neg hb]
    cases hl : s.Palette.lookup st <;> simp

lemma applyCalls_dims (calls : List SetBlockCall) :
    ∀ s : Schematic,
      (applyCalls s calls).Width = s.Width ∧
      (applyCalls s calls).Height = s.Height ∧
      (applyCalls s calls).Length = s.Length ∧
      (applyCalls s calls).blockData.length = s.blockData.length := by
  induction calls with
  | nil => exact fun s => ⟨rfl, rfl, rfl, rfl⟩
  | cons c rest ih =>
    intro s
    have hstep := setBlock_dims s c.x c.y c.z c.state
    have htail := ih (s.SetBlock c.x c.y c.z c.state)
    exact ⟨htail.1.trans hstep.1, htail.2.1.trans hstep.2.1,
      htail.2.2.1.trans hstep.2.2.1, htail.2.2.2.trans hstep.2.2.2⟩

lemma lookup_none_iff_not_mem (p : List (String × Nat)) (st : String) :
    p.lookup st = none ↔ st ∉ p.map Prod.fst := by
  induction p with
  | nil => simp
  | cons a t ih =>
    obtain ⟨k, v⟩ := a
    by_cases h : st = k
    · subst h
      simp [List.lookup]
    · have hbeq : (st == k) = false := beq_eq_false_iff_ne.mpr h
      simp [List.lookup, hbeq, h, ih]

lemma paletteInv_insert (p : List (String × Nat)) (st : String)
    (hnm : st ∉ p.map Prod.fst) (h : PaletteInv p) :
    PaletteInv (p ++ [(st, p.length)]) := by
  obtain ⟨h1, h2, h3⟩ := h
  refine ⟨?_, ?_, ?_⟩
  · rw [List.map_append]
    refine List.Nodup.append h1 (by simp) ?_
    intro a ha hb
    simp only [List.map_cons, List.map_nil, List.mem_singleton] at hb
    subst hb
    exact hnm ha
  · rw [List.map_append, h2, List.length_append]
    simp [List.range_succ]
  · rcases p with _ | ⟨a, t⟩
    · simp at h3
    · simpa using h3

lemma paletteInv_setBlock (s : Schematic) (x y z : Int) (st : String)
    (h : PaletteInv s.Palette) : PaletteInv ((s.SetBlock x y z st).Palette) := by
  rw [setBlock_palette_eq]
  by_cases hb :
      goInt64 (x + z * (s.Width : Int) + y * (s.Width : Int) * (s.Length : Int)) < 0 ∨
      (s.blockData.length : Int) ≤
        goInt64 (x + z * (s.Width : Int) + y * (s.Width : Int) * (s.Length : Int))
  · rwa [if_pos hb]
  · rw [if_neg hb]
    cases hl : s.Palette.lookup st with
    | some v => exact h
    | none => exact paletteInv_insert _ _ ((lookup_none_iff_not_mem _ _).mp hl) h

lemma applyCalls_paletteInv (calls : List SetBlockCall) :
    ∀ s : Schematic, PaletteInv s.Palette → PaletteInv (applyCalls s calls).Palette := by
  induction calls with
  | nil => exact fun s h => h
  | cons c rest ih =>
    intro s h
    exact ih _ (paletteInv_setBlock s c.x c.y c.z c.state h)

lemma setBlock_keys_mem (s : Schematic) (c : SetBlockCall) (str : String) :
    str ∈ ((s.SetBlock c.x c.y c.z c.state).Palette.map Prod.fst) ↔
      str ∈ s.Palette.map Prod.fst ∨
        (c.state = str ∧ InBoundsCall s.Width s.Length s.blockData.length c) := by
  rw [setBlock_palette_eq]
  by_cases hb :
      goInt64 (c.x + c.z * (s.Width : Int) + c.y * (s.Width : Int) * (s.Length : Int)) < 0 ∨
      (s.blockData.length : Int) ≤
        goInt64 (c.x + c.z * (s.Width : Int) + c.y * (s.Width : Int) * (s.Length : Int))
  · rw [if_pos hb]
    have hni : ¬ InBoundsCall s.Width s.Length s.blockData.length c := by
      unfold InBoundsCall callIndex goInt64
      unfold goInt64 at hb
      omega
    constructor
    · exact Or.inl
    · rintro (hm | ⟨-, hib⟩)
      · exact hm
      · exact absurd hib hni
  · rw [if_neg hb]
    have hib : InBoundsCall s.Width s.Length s.blockData.length c := by
      unfold InBoundsCall callIndex goInt64
      unfold goInt64 at hb
      omega
    cases hl : s.Palette.lookup c.state with
    | some v =>
        have hmem : c.state ∈ s.Palette.map Prod.fst := by
          by_contra hnm
          rw [(lookup_none_iff_not_mem _ _).mpr hnm] at hl
          exact Option.noConfusion hl
        constructor
        · exact Or.inl
        · rintro (hm | ⟨he, -⟩)
          · exact hm
          · exact he ▸ hmem
    | none =>
        simp only [List.map_append, List.mem_append, List.map_cons, List.map_nil,
          List.mem_singleton]
        constructor
        · rintro (hm | hm)
          · exact Or.inl hm
          · exact Or.inr ⟨hm.symm, hib⟩
        · rintro (hm | ⟨he, -⟩)
          · exact Or.inl hm
          · exact Or.inr he.symm

lemma applyCalls_keys_mem (calls : List SetBlockCall) :
    ∀ (s : Schematic) (str : String),
      str ∈ ((applyCalls s calls).Palette.map Prod.fst) ↔
        str ∈ s.Palette.map Prod.fst ∨
          ∃ c ∈ calls, c.state = str ∧
            InBoundsCall s.Width s.Length s.blockData.length c := by
  induction calls with
  | nil =>
    intro s str
    simp [applyCalls]
  | cons c rest ih =>
    intro s str
    have hstep : applyCalls s (c :: rest) =
        applyCalls (s.SetBlock c.x c.y c.z c.state) rest := rfl
    have hd := setBlock_dims s c.x c.y c.z c.state
    rw [hstep, ih, setBlock_keys_mem, hd.1, hd.2.2.1, hd.2.2.2]
    constructor
    · rintro ((hm | ⟨he, hib⟩) | ⟨c2, hc2, he, hib⟩)
      · exact Or.inl hm
      · exact Or.inr ⟨c, List.mem_cons_self c rest, he, hib⟩
      · exact Or.inr ⟨c2, List.mem_cons_of_mem c hc2, he, hib⟩
    · rintro (hm | ⟨c2, hc2, he, hib⟩)
      · exact Or.inl (Or.inl hm)
      · rcases List.mem_cons.mp hc2 with rfl | hmem
        · exact Or.inl (Or.inr ⟨he, hib⟩)
        · exact Or.inr ⟨c2, hmem, he, hib⟩

/-- C5 (amended): after replaying any sequence of `SetBlock` calls on a new
schematic and saving, the written palette sub-tree contains exactly one int
tag per distinct canonical state string that was passed to a `SetBlock` call
whose linear index — computed, as Go computes it, in wrapping 64-bit `int`
arithmetic — was in bounds, together with the seeded `"minecraft:air"`
entry; tags are keyed by the exact string and valued by first-use order
0,1,2,..., starting at 0 for `"minecraft:air"`. (Out-of-bounds calls insert
nothing; the claim as frozen does not restrict to in-bounds calls.) -/
theorem C5_save_palette_tags (w h l : Nat) (dv : Int) (calls : List SetBlockCall) :
    (((applyCalls (NewSchematic w h l dv) calls).savePaletteTags.map Prod.fst).Nodup) ∧
    ((applyCalls (NewSchematic w h l dv) calls).savePaletteTags.map Prod.snd =
      List.range (applyCalls (NewSchematic w h l dv) calls).savePaletteTags.length) ∧
    ((applyCalls (NewSchematic w h l dv) calls).savePaletteTags.head? =
      some ("minecraft:air", 0)) ∧
    ∀ str : String,
      str ∈ ((applyCalls (NewSchematic w h l dv) calls).savePaletteTags.map Prod.fst) ↔
        (str = "minecraft:air" ∨
          ∃ c ∈ calls, c.state = str ∧ InBoundsCall w l (w * h * l) c) := by
  have hinv : PaletteInv (applyCalls (NewSchematic w h l dv) calls).Palette := by
    refine applyCalls_paletteInv calls _ ?_
    refine ⟨by simp [NewSchematic], by simp [NewSchematic, List.range_succ], rfl⟩
  refine ⟨hinv.1, hinv.2.1, hinv.2.2, fun str => ?_⟩
  have hmem := applyCalls_keys_mem calls (NewSchematic w h l dv) str
  simp only [NewSchematic, List.length_replicate, List.map_cons, List.map_nil,
    List.mem_singleton] at hmem
  exact hmem

/-- C5 counterexample: `SetBlock(5,0,0,"minecraft:stone")` on a 1×1×1
schematic is out of bounds, so the string `"minecraft:stone"`, although
passed to `SetBlock`, never enters the saved palette sub-tree: the claim's
"exactly one int tag per distinct canonical block-state string ever passed
to SetBlock" fails for it. -/
theorem C5_counterexample :
    ¬ ("minecraft:stone" ∈
        ((applyCalls (NewSchematic 1 1 1 0)
          [⟨5, 0, 0, "minecraft:stone"⟩]).savePaletteTags.map Prod.fst)) := by
  decide

/-- Witness for C5 at a concrete input: one in-bounds call on a 2×2×2
schematic; the saved palette is exactly air at 0 and the new state at 1. -/
theorem C5_save_palette_tags_witness :
    (((applyCalls (NewSchematic 2 2 2 0)
        [⟨1, 0, 0, "minecraft:stone"⟩]).savePaletteTags.map Prod.fst).Nodup) ∧
    ("minecraft:stone" ∈
      ((applyCalls (NewSchematic 2 2 2 0)
        [⟨1, 0, 0, "minecraft:stone"⟩]).savePaletteTags.map Prod.fst)) := by
  refine ⟨(C5_save_palette_tags 2 2 2 0 [⟨1, 0, 0, "minecraft:stone"⟩]).1, ?_⟩
  rw [(C5_save_palette_tags 2 2 2 0 [⟨1, 0, 0, "minecraft:stone"⟩]).2.2.2 "minecraft:stone"]
  refine Or.inr ⟨⟨1, 0, 0, "minecraft:stone"⟩, by decide, rfl, ?_⟩
  constructor <;> decide

/-- C10 (amended): a `SetBlock` call on a schematic built by `NewSchematic`
plus any replayed calls whose linear index `x + z*Width + y*Width*Length`,
computed as Go computes it in wrapping 64-bit `int` arithmetic, is negative
or at least `Width*Height*Length` leaves the schematic completely unchanged:
no block datum is written and the state string is not inserted into the
palette, even when it has never been seen before. -/
theorem C10_setBlock_out_of_bounds (w h l : Nat) (dv : Int) (calls : List SetBlockCall)
    (x y z : Int) (st : String)
    (hoob : goInt64 (x + z * (w : Int) + y * (w : Int) * (l : Int)) < 0 ∨
      ((w * h * l : Nat) : Int) ≤ goInt64 (x + z * (w : Int) + y * (w : Int) * (l : Int))) :
    (applyCalls (NewSchematic w h l dv) calls).SetBlock x y z st =
      applyCalls (NewSchematic w h l dv) calls := by
  have hd := applyCalls_dims calls (NewSchematic w h l dv)
  simp only [Schematic.SetBlock]
  rw [hd.1, hd.2.2.1, hd.2.2.2]
  simp only [NewSchematic, List.length_replicate]
  rw [if_pos hoob]

/-- C10 counterexample: on a 1×1×1 schematic, the call
`SetBlock(2^63 - 1, 2, 2^63 - 1, "minecraft:stone")` has mathematical linear
index `(2^63-1) + (2^63-1)*1 + 2*1*1 = 2^64`, far beyond `1*1*1`, yet Go's
`int` arithmetic wraps it to 0: the guard passes, the datum is written and
the string enters the palette, so the schematic is not left unchanged. -/
theorem C10_counterexample :
    (((2 ^ 63 - 1 : Int) + (2 ^ 63 - 1 : Int) * ((1 : Nat) : Int) +
        (2 : Int) * ((1 : Nat) : Int) * ((1 : Nat) : Int)) ≥ ((1 * 1 * 1 : Nat) : Int)) ∧
    (NewSchematic 1 1 1 0).SetBlock (2 ^ 63 - 1) 2 (2 ^ 63 - 1) "minecraft:stone" ≠
      NewSchematic 1 1 1 0 := by
  refine ⟨by norm_num, fun heq => ?_⟩
  have hpal := congrArg Schematic.Palette heq
  have hval : ((NewSchematic 1 1 1 0).SetBlock (2 ^ 63 - 1) 2 (2 ^ 63 - 1)
      "minecraft:stone").Palette =
      [("minecraft:air", 0), ("minecraft:stone", 1)] := by decide
  rw [hval] at hpal
  exact absurd hpal (by decide)

/-- Witness for C10: the out-of-bounds call (5,0,0) on a fresh 1×1×1
schematic returns the schematic unchanged. -/
theorem C10_setBlock_out_of_bounds_witness :
    (applyCalls (NewSchematic 1 1 1 0) []).SetBlock 5 0 0 "minecraft:stone" =
      applyCalls (NewSchematic 1 1 1 0) [] :=
  C10_setBlock_out_of_bounds 1 1 1 0 [] 5 0 0 "minecraft:stone" (by decide)

lemma readU16_u16BE (n : Nat) (h : n < 2 ^ 16) (rest : List Nat) :
    readU16 (u16BE n ++ rest) = some (n, rest) := by
  simp only [u16BE, List.cons_append, List.nil_append, readU16, readU8]
  congr 2
  omega

lemma readU32_u32BE (n : Nat) (h : n < 2 ^ 32) (rest : List Nat) :
    readU32 (u32BE n ++ rest) = some (n, rest) := by
  simp only [u32BE, List.cons_append, List.nil_append, readU32, readU16, readU8]
  congr 2
  omega

lemma readI32_u32BE (n : Nat) (h : n < 2 ^ 31) (rest : List Nat) :
    readI32 (u32BE n ++ rest) = some ((n : Int), rest) := by
  rw [readI32, readU32_u32BE n (by omega) rest]
  simp only [if_pos h]

lemma readNBytes_exact (payload rest : List Nat) (h : payload.length < 2 ^ 31) :
    readNBytes ((payload.length : Nat) : Int) (payload ++ rest) = some (payload, rest) := by
  rw [readNBytes, if_neg (by omega)]
  rw [if_pos]
  · rw [Int.toNat_natCast]
    simp
  · rw [Int.toNat_natCast, List.length_append]
    omega

lemma skipSizedData_sizedBlock (payload rest : List Nat) (h : payload.length < 2 ^ 31) :
    skipSizedData (sizedBlock payload ++ rest) = some rest := by
  rw [sizedBlock, List.append_assoc]
  unfold skipSizedData
  rw [readI32_u32BE _ h]
  show (if 0 < ((payload.length : Nat) : Int) then
      some (List.drop ((payload.length : Nat) : Int).toNat (payload ++ rest))
    else some (payload ++ rest)) = some rest
  by_cases hp : 0 < payload.length
  · rw [if_pos (by exact_mod_cast hp), Int.toNat_natCast]
    simp
  · have hp0 : payload = [] := by
      cases payload
      · rfl
      · simp at hp
    subst hp0
    norm_num

/-- C6: for every world-flags byte, the three optional length-prefixed
datasets are consumed in the fixed order point-of-interest (bit 1), then
block-ticks (bit 4), then fluid-ticks (bit 2), each consumed exactly when
its flag bit is set: a stream laid out as the POI block (iff bit 1), then
the block-ticks block (iff bit 4), then the fluid-ticks block (iff bit 2),
then anything, is consumed down to exactly that remainder. The read order
deliberately does not follow the numeric bit positions. -/
theorem C6_optional_datasets_order (flags : Nat) (poi bt ft rest : List Nat)
    (hpoi : poi.length < 2 ^ 31) (hbt : bt.length < 2 ^ 31) (hft : ft.length < 2 ^ 31) :
    skipOptionalChunkData flags
      ((if flags &&& FlagPOIChunks ≠ 0 then sizedBlock poi else []) ++
        ((if flags &&& FlagBlockTicks ≠ 0 then sizedBlock bt else []) ++
          ((if flags &&& FlagFluidTicks ≠ 0 then sizedBlock ft else []) ++ rest))) =
      some rest := by
  simp only [skipOptionalChunkData]
  by_cases h1 : flags &&& FlagPOIChunks ≠ 0 <;>
    by_cases h2 : flags &&& FlagBlockTicks ≠ 0 <;>
      by_cases h4 : flags &&& FlagFluidTicks ≠ 0 <;>
        simp [h1, h2, h4, skipSizedData_sizedBlock _ _ hpoi,
          skipSizedData_sizedBlock _ _ hbt, skipSizedData_sizedBlock _ _ hft]

/-- Witness for C6: the spec's synthetic case, a flags byte with the POI and
block-ticks bits set (1 + 4 = 5): the POI block is read first, then the
block-ticks block, and the fluid-ticks block is skipped entirely. -/
theorem C6_optional_datasets_order_witness :
    skipOptionalChunkData 5
      ((if 5 &&& FlagPOIChunks ≠ 0 then sizedBlock [0xAA] else []) ++
        ((if 5 &&& FlagBlockTicks ≠ 0 then sizedBlock [0xBB, 0xCC] else []) ++
          ((if 5 &&& FlagFluidTicks ≠ 0 then sizedBlock [0xDD] else []) ++ [0x11]))) =
      some [0x11] :=
  C6_optional_datasets_order 5 [0xAA] [0xBB, 0xCC] [0xDD] [0x11]
    (by norm_num) (by norm_num) (by norm_num)

/-- C7: for every input whose header, compressed chunk payload, and chunk
list all parse successfully, `ReadSlimeWorld` returns the already-built
world successfully with all parsed chunks intact for EVERY trailing byte
sequence — in particular when the optional global block's length fields are
missing (end of stream) or its bytes are truncated. Stated for arbitrary
instantiations of the external zstd decompressor and of `parseChunks`. -/
theorem C7_trailer_truncation_tolerated
    (decompress : List Nat → Option (List Nat))
    (parseChunksF : List Nat → Nat → Nat → Option (List SlimeChunk))
    (version flags wv uncompSize : Nat) (compData chunksData trailer : List Nat)
    (chunks : List SlimeChunk)
    (hv : version = 12 ∨ version = 13)
    (hwv : wv < 2 ^ 32)
    (hcomp : compData.length < 2 ^ 31)
    (huncomp : uncompSize < 2 ^ 31)
    (hdec : decompress compData = some chunksData)
    (hlen : chunksData.length = uncompSize)
    (hpc : parseChunksF chunksData (if version = 13 then flags else 0) version =
      some chunks) :
    ReadSlimeWorld decompress parseChunksF
      (u16BE 0xB10B ++ [version] ++ u32BE wv ++
        (if version = 13 then [flags] else []) ++ u32BE compData.length ++
        u32BE uncompSize ++ compData ++ trailer) =
      .ok ⟨wv, chunks⟩ := by
  rcases hv with rfl | rfl
  · norm_num at hpc
    simp [ReadSlimeWorld, List.append_assoc, List.singleton_append,
      readU16_u16BE 0xB10B (by norm_num), readU8, readU32_u32BE wv hwv,
      readI32_u32BE compData.length hcomp, readI32_u32BE uncompSize huncomp,
      readNBytes_exact compData trailer hcomp, hdec, hlen, hpc]
    split
    · rfl
    · split
      · rfl
      · split
        · rfl
        · rfl
  · norm_num at hpc
    simp [ReadSlimeWorld, List.append_assoc, List.singleton_append,
      readU16_u16BE 0xB10B (by norm_num), readU8, readU32_u32BE wv hwv,
      readI32_u32BE compData.length hcomp, readI32_u32BE uncompSize huncomp,
      readNBytes_exact compData trailer hcomp, hdec, hlen, hpc]
    split
    · rfl
    · split
      · rfl
      · split
        · rfl
        · rfl

/-- Witness for C7: a minimal well-formed version-12 input whose trailer is
the 3-byte fragment `[0,0,1]` — too short for the optional block's length
field — still yields the parsed world. -/
theorem C7_trailer_truncation_tolerated_witness :
    ReadSlimeWorld (fun l => some l) (fun _ _ _ => some [])
      (u16BE 0xB10B ++ [12] ++ u32BE 0 ++ (if 12 = 13 then [0] else []) ++
        u32BE (List.length ([] : List Nat)) ++ u32BE 0 ++ ([] : List Nat) ++ [0, 0, 1]) = .ok ⟨0, []⟩ :=
  C7_trailer_truncation_tolerated (fun l => some l) (fun _ _ _ => some [])
    12 0 0 0 [] [] [0, 0, 1] [] (Or.inl rfl) (by norm_num) (by norm_num)
    (by norm_num) rfl rfl rfl

/-- C8: `ReadSlimeWorld` returns a fatal error and no world whenever the
2-byte magic differs from `0xB10B`, whenever the 1-byte format version lies
outside {12, 13}, or whenever the decompressed chunk payload's length
differs from the declared expected uncompressed size — for every
instantiation of the external decompressor and of `parseChunks`. -/
theorem C8_fatal_header_errors
    (decompress : List Nat → Option (List Nat))
    (parseChunksF : List Nat → Nat → Nat → Option (List SlimeChunk)) :
    (∀ (m : Nat) (rest : List Nat), m < 2 ^ 16 → m ≠ 0xB10B →
      ReadSlimeWorld decompress parseChunksF (u16BE m ++ rest) =
        .error .invalidMagic) ∧
    (∀ (v : Nat) (rest : List Nat), v < 12 ∨ 13 < v →
      ReadSlimeWorld decompress parseChunksF (u16BE 0xB10B ++ v :: rest) =
        .error .unsupportedVersion) ∧
    (∀ (version flags wv uncompSize : Nat) (compData chunksData rest : List Nat),
      (version = 12 ∨ version = 13) → wv < 2 ^ 32 → compData.length < 2 ^ 31 →
      uncompSize < 2 ^ 31 → decompress compData = some chunksData →
      chunksData.length ≠ uncompSize →
      ReadSlimeWorld decompress parseChunksF
        (u16BE 0xB10B ++ [version] ++ u32BE wv ++
          (if version = 13 then [flags] else []) ++ u32BE compData.length ++
          u32BE uncompSize ++ compData ++ rest) = .error .sizeMismatch) := by
  refine ⟨fun m rest hm hne => ?_, fun v rest hv => ?_,
    fun version flags wv uncompSize compData chunksData rest hv hwv hcomp huncomp
      hdec hne => ?_⟩
  · simp [ReadSlimeWorld, readU16_u16BE m hm, hne]
  · simp [ReadSlimeWorld, readU16_u16BE 0xB10B (by norm_num), readU8, if_pos hv]
  · have hneI : ((chunksData.length : Nat) : Int) ≠ ((uncompSize : Nat) : Int) := by
      exact_mod_cast hne
    rcases hv with rfl | rfl
    · simp [ReadSlimeWorld, List.append_assoc, List.singleton_append,
        readU16_u16BE 0xB10B (by norm_num), readU8, readU32_u32BE wv hwv,
        readI32_u32BE compData.length hcomp, readI32_u32BE uncompSize huncomp,
        readNBytes_exact compData rest hcomp, hdec, hneI]
    · simp [ReadSlimeWorld, List.append_assoc, List.singleton_append,
        readU16_u16BE 0xB10B (by norm_num), readU8, readU32_u32BE wv hwv,
        readI32_u32BE compData.length hcomp, readI32_u32BE uncompSize huncomp,
        readNBytes_exact compData rest hcomp, hdec, hneI]

/-- Witness for C8 at concrete inputs: magic 0, version byte 0, and a
declared uncompressed size of 1 against an empty decompressed payload. -/
theorem C8_fatal_header_errors_witness :
    (ReadSlimeWorld (fun l => some l) (fun _ _ _ => some []) (u16BE 0 ++ []) =
      .error .invalidMagic) ∧
    (ReadSlimeWorld (fun l => some l) (fun _ _ _ => some [])
      (u16BE 0xB10B ++ 0 :: []) = .error .unsupportedVersion) ∧
    (ReadSlimeWorld (fun l => some l) (fun _ _ _ => some [])
      (u16BE 0xB10B ++ [12] ++ u32BE 0 ++ (if 12 = 13 then [0] else []) ++
        u32BE (List.length ([] : List Nat)) ++ u32BE 1 ++ ([] : List Nat) ++ ([] : List Nat)) = .error .sizeMismatch) :=
  ⟨(C8_fatal_header_errors (fun l => some l) (fun _ _ _ => some [])).1 0 []
      (by norm_num) (by norm_num),
   (C8_fatal_header_errors (fun l => some l) (fun _ _ _ => some [])).2.1 0 []
      (by norm_num),
   (C8_fatal_header_errors (fun l => some l) (fun _ _ _ => some [])).2.2 12 0 0 1
      [] [] [] (Or.inl rfl) (by norm_num) (by norm_num) (by norm_num) rfl
      (by norm_num)⟩

/-- C9: when a chunk's length-prefixed tile-entity or entity block has a
payload that fails to unmarshal, or the decoded container lacks the expected
single list-valued field, or that field is not a list, `readNBTListSection`
returns an empty list and consumes the block instead of failing — for every
instantiation of the external NBT unmarshaller. -/
theorem C9_malformed_record_degrades
    (unmarshal : List Nat → Option (List (String × Dyn)))
    (listName : String) (payload rest : List Nat)
    (hlen : payload.length < 2 ^ 31) (hpos : 0 < payload.length) :
    (unmarshal payload = none →
      readNBTListSection unmarshal listName (u32BE payload.length ++ (payload ++ rest)) =
        some ([], rest)) ∧
    (∀ container, unmarshal payload = some container →
      container.lookup listName = none →
      readNBTListSection unmarshal listName (u32BE payload.length ++ (payload ++ rest)) =
        some ([], rest)) ∧
    (∀ container v, unmarshal payload = some container →
      container.lookup listName = some v → (∀ l, v ≠ Dyn.arr l) →
      readNBTListSection unmarshal listName (u32BE payload.length ++ (payload ++ rest)) =
        some ([], rest)) := by
  have hnp : ¬ (((payload.length : Nat) : Int) ≤ 0) := by
    have : (0 : Int) < ((payload.length : Nat) : Int) := by exact_mod_cast hpos
    omega
  refine ⟨fun hu => ?_, fun container hu hlk => ?_, fun container v hu hlk hne => ?_⟩
  · simp [readNBTListSection, readI32_u32BE payload.length hlen,
      readNBytes_exact payload rest hlen, hnp, hu]
  · simp [readNBTListSection, readI32_u32BE payload.length hlen,
      readNBytes_exact payload rest hlen, hnp, hu, hlk]
  · simp only [readNBTListSection, readI32_u32BE payload.length hlen, if_neg hnp,
      readNBytes_exact payload rest hlen, hu, hlk]

/-- Witness for C9: a one-byte payload under an unmarshaller that always
fails, one that yields a container without the field, and one whose field is
a scalar rather than a list. -/
theorem C9_malformed_record_degrades_witness :
    (readNBTListSection (fun _ => none) "tileEntities"
      (u32BE (List.length [7]) ++ ([7] ++ [9])) = some ([], [9])) ∧
    (readNBTListSection (fun _ => some []) "tileEntities"
      (u32BE (List.length [7]) ++ ([7] ++ [9])) = some ([], [9])) ∧
    (readNBTListSection (fun _ => some [("tileEntities", Dyn.int 3)]) "tileEntities"
      (u32BE (List.length [7]) ++ ([7] ++ [9])) = some ([], [9])) :=
  ⟨(C9_malformed_record_degrades (fun _ => none) "tileEntities" [7] [9]
      (by norm_num) (by norm_num)).1 rfl,
   (C9_malformed_record_degrades (fun _ => some []) "tileEntities" [7] [9]
      (by norm_num) (by norm_num)).2.1 [] rfl rfl,
   (C9_malformed_record_degrades (fun _ => some [("tileEntities", Dyn.int 3)])
      "tileEntities" [7] [9] (by norm_num) (by norm_num)).2.2
      [("tileEntities", Dyn.int 3)] (Dyn.int 3) rfl rfl
      (fun l h => Dyn.noConfusion h)⟩
